import Mathlib

/-!
Verification of the adaptive document-summarization pipeline
(Text-Autocompletion-Agent repository) against its natural-language
specification.

The Python sources are shallowly embedded as executable Lean definitions:

* machine integers become Nat/Int (Python ints are unbounded, so this is
  exact); Python floats that only scale integers (0.92, 1.08, 0.2, 0.4,
  1/0.75) are embedded as exact rational arithmetic, which agrees with the
  float computation on all realistically sized inputs;
* Python `int(x)` (truncation toward zero) on rationals is `ratTrunc`;
* `str.split()` is `pySplit` (whitespace split dropping empty tokens);
* fallible paths return Option;
* the external LLM generation call is an uninterpreted function parameter.
-/

namespace TextAgent

/-- Python `int(q)` on a rational: truncation toward zero. -/
def ratTrunc (q : ℚ) : ℤ := q.num.tdiv q.den

/-- Whitespace tokenizer on character lists (`cur` accumulates the current
token, reversed). -/
def wsTokensAux : List Char → List Char → List (List Char)
  | [], cur => if cur = [] then [] else [cur.reverse]
  | c :: rest, cur =>
      if Char.isWhitespace c then
        if cur = [] then wsTokensAux rest []
        else cur.reverse :: wsTokensAux rest []
      else wsTokensAux rest (c :: cur)

/-- Python `s.split()`: split on whitespace runs and drop empty tokens. -/
def pySplit (s : String) : List String :=
  (wsTokensAux s.data []).map (fun l => ⟨l⟩)

/-- `len(text.split())`: the word counter used throughout the pipeline. -/
def splitWordCount (s : String) : ℕ := (pySplit s).length

/-! ### Chunk planning (src/services/chunking.py, plan_chunk_word_spans) -/

/-- The while-loop of `plan_chunk_word_spans` (chunking.py lines 40-46):
starting at `start`, emit spans `(start, min total (start+target))`,
stepping by `stride`, stopping once a span reaches `total`. -/
def spanLoop (total target stride : ℕ) (hs : 0 < stride) (start : ℕ) :
    List (ℕ × ℕ) :=
  if h : start < total then
    let e := min total (start + target)
    if total ≤ e then [(start, e)]
    else (start, e) :: spanLoop total target stride hs (start + stride)
  else []
termination_by total - start
decreasing_by omega

/-- The tail-merge step of `plan_chunk_word_spans` (chunking.py lines 49-55):
if more than one span exists and the last span is shorter than
`int(target * 0.4)` words, extend the previous span to the last end and
drop the last span.  (`int(target * 0.4)` equals `2 * target / 5` in exact
arithmetic, which matches the float computation for all realistic targets.) -/
def tailMerge (target : ℕ) : List (ℕ × ℕ) → List (ℕ × ℕ)
  | [] => []
  | [s] => [s]
  | [p, l] =>
      if l.2 - l.1 < 2 * target / 5 then [(p.1, l.2)] else [p, l]
  | p :: q :: r :: rest => p :: tailMerge target (q :: r :: rest)

/-- `plan_chunk_word_spans(total_words, target_words, overlap_pct)`
(chunking.py lines 22-56).  `target_words` is an unbounded Python int,
`overlap_pct` a float embedded as an exact rational. -/
def plan_chunk_word_spans (total_words : ℕ) (target_words : ℤ)
    (overlap_pct : ℚ) : List (ℕ × ℕ) :=
  if total_words = 0 then []
  else
    let target : ℕ := (max 50 target_words).toNat
    let overlap_words : ℤ := ratTrunc ((target : ℚ) * overlap_pct)
    let stride : ℕ := (max 10 ((target : ℤ) - overlap_words)).toNat
    tailMerge target
      (spanLoop total_words target stride (by omega) 0)


/-! ### String primitives

Python string operations are embedded as plain `List Char` recursions (via
`String.data`), so that every definition reduces in the kernel. -/

/-- Strip leading and trailing whitespace (Python `str.strip()`). -/
def pyStrip (s : String) : String :=
  ⟨((s.data.dropWhile Char.isWhitespace).reverse.dropWhile
      Char.isWhitespace).reverse⟩

/-- Strip trailing whitespace (Python `str.rstrip()`). -/
def pyRstrip (s : String) : String :=
  ⟨(s.data.reverse.dropWhile Char.isWhitespace).reverse⟩

/-- Lowercase every character (Python `str.lower()` / `re.IGNORECASE`). -/
def lowerStr (s : String) : String := ⟨s.data.map Char.toLower⟩

/-- Parse a decimal digit string (Python `int(...)` on a digits-only match). -/
def parseDigits (l : List Char) : ℕ :=
  l.foldl (fun n c => 10 * n + (c.toNat - 48)) 0

/-! ### Token-budget planning (src/utils/validator.py, calculate_max_tokens) -/

/-- Embeds `calculate_max_tokens` (validator.py lines 83-112).  A Python
length-constraint dict is modeled as `Option (Option String × Option Int)`:
`none` is Python `None`, and `some (ty, val)` is a dict whose "type" and
"value" keys are `ty` and `val` when present (other keys never affect the
function).  The falsy test `not max_output_length` holds for `None` and for
the empty dict `some (none, none)`; `value or 300` replaces an absent or
zero value by 300; `int(lv / 0.75)` equals `4 * lv / 3` exactly for the
clamped positive `lv`. -/
def calculate_max_tokens (c : Option (Option String × Option Int)) : ℤ :=
  match c with
  | none => 300
  | some (ty, val) =>
    if ty = none ∧ val = none then 300
    else
      let length_type : String := ty.getD "words"
      let length_value : ℤ :=
        match val with
        | none => 300
        | some v => if v = 0 then 300 else v
      let lv : ℤ := max 20 (min length_value 20000)
      let est : ℤ :=
        if length_type = "characters" then max 1 (lv / 4)
        else 4 * lv / 3
      max 60 (min est 8000)

/-- The words-branch token formula exactly as claim C10 states it:
`max(60, min(int(clamp(value, 20, 20000) / 0.75), 8000))`. -/
def c10_words_formula (v : ℤ) : ℤ :=
  max 60 (min (4 * (max 20 (min v 20000)) / 3) 8000)

/-! ### Truncation detection

`is_summary_truncated` is imported from `utils.validator` throughout
`logic/mode_5.py` and exercised by `tests/test_truncation_fix.py`, but its
definition is not among the repository files; it is modelled from the spec
below. -/

/-- Terminal sentence punctuation per the spec: `.`, `!`, `?`. -/
def terminalPunctChar (c : Char) : Bool := c = '.' || c = '!' || c = '?'

/-- Closing quotes/parens that may follow terminal punctuation. -/
def closingChar (c : Char) : Bool :=
  c = Char.ofNat 34 || c = Char.ofNat 39 || c = ')' || c = ']'

/-- Whether a reversed, whitespace-stripped character list ends in terminal
punctuation: the last character is `.`/`!`/`?`, or it is a closing
quote/paren immediately preceded by one of those. -/
def endsTerminally (revStripped : List Char) : Bool :=
  match revStripped with
  | [] => false
  | c :: rest =>
    terminalPunctChar c ||
      (closingChar c &&
        match rest with
        | [] => false
        | c2 :: _ => terminalPunctChar c2)

/-- The configured dangling conjunction/preposition list, taken from the
spec examples. -/
def danglingWords : List String :=
  ["and", "but", "however", "to", "of", "because"]

/-- Bare list-item / heading marker tokens (cut-off detection). -/
def markerTokens : List String :=
  ["-", "*", "+", "#", "##", "###", "####"]

/-- The final whitespace-token of a text, lowercased, with trailing
non-alphanumeric characters dropped. -/
def lastWordCore (s : String) : String :=
  match (pySplit s).getLast? with
  | none => ""
  | some w =>
      ⟨((lowerStr w).data.reverse.dropWhile (fun c => !c.isAlphanum)).reverse⟩

/-- Modelled from the spec: `is_summary_truncated` is used by
`logic/mode_5.py` but defined in no repository file.  Following spec §4.5,
a text is truncated iff it is non-empty and: its last non-whitespace
character is not terminal punctuation (a closing quote/paren counts as
terminal when preceded by `.`/`!`/`?`), OR its final word is in the
configured dangling conjunction/preposition list, OR it ends in a bare
list-item or heading marker. -/
def is_summary_truncated (s : String) : Bool :=
  let revStripped := s.data.reverse.dropWhile Char.isWhitespace
  match revStripped with
  | [] => false
  | _ =>
    !(endsTerminally revStripped)
      || danglingWords.contains (lastWordCore s)
      || markerTokens.contains ((pySplit s).getLast?.getD "")

/-! ### Target resolution (src/logic/mode_5.py, _process_core lines 287-321,
_extract_target_from_prompt lines 600-616; src/services/baseline.py) -/

/-- The target-resolution modes of `_process_core`. -/
inductive TargetMode where
  | prompt
  | user_absolute_capped
  | user_absolute
  | small_default_100
  | auto_20pct
deriving DecidableEq

/-- `round(total_words * 0.20)` in exact arithmetic.  The fractional part
of `total/5` is always in {0, .2, .4, .6, .8}, so Python rounding (and its
banker tie rule, which never fires) equals `(total + 2) / 5`. -/
def round20pct (total : ℕ) : ℕ := (total + 2) / 5

/-- The no-explicit-signal default of `_process_core` (lines 303-311):
small documents (< 500 words) get the fixed 100-word default; large
documents get `min(max(1, round(total*0.20)), total)`. -/
def defaultTarget (total_words : ℕ) : ℕ × TargetMode :=
  if total_words < 500 then (100, TargetMode.small_default_100)
  else (min (max 1 (round20pct total_words)) total_words, TargetMode.auto_20pct)

/-- The effective-target precedence of `_process_core` (lines 288-311):
a prompt-extracted target wins; otherwise a positive explicit target is
capped to the document length; otherwise the defaults apply (a non-positive
explicit target counts as not provided). -/
def resolve_effective_target (total_words : ℕ) (target_words : Option ℤ)
    (prompt_target : Option ℕ) : ℕ × TargetMode :=
  match prompt_target with
  | some pt => (pt, TargetMode.prompt)
  | none =>
    match target_words with
    | some tw =>
        if 0 < tw then
          if (total_words : ℤ) < tw then
            (total_words, TargetMode.user_absolute_capped)
          else (tw.toNat, TargetMode.user_absolute)
        else defaultTarget total_words
    | none => defaultTarget total_words

/-- The clamp applied by `compute_baseline_metrics` (baseline.py lines
35-62) to a positive target override: `max(MIN_EXTRACTED_WORDS,
min(target, MAX_FINAL_WORDS))` with the configured constants 20 and 2000;
a non-positive override raises, modeled as `none`. -/
def compute_baseline_final_target (final_target_override : ℕ) : Option ℕ :=
  if final_target_override = 0 then none
  else some (max 20 (min final_target_override 2000))

/-! ### Prompt target extraction (_extract_target_from_prompt)

The three regular expressions of mode_5.py lines 603-607 are modelled at
character level over the lowercased prompt (`re.IGNORECASE`):

* `\b` before a pattern that starts with a word character holds iff the
  preceding character is absent or not a word character (`[A-Za-z0-9_]`;
  the model is ASCII-scoped, as are the pattern literals);
* `\s+` consumes a maximal nonempty whitespace run (the following
  component never starts with whitespace, so greedy consumption is exact);
* `(\d{2,5})` followed by `\s+` matches exactly a maximal digit run of
  length 2-5 (a longer run fails all backtracking lengths because the
  required whitespace would have to match a digit);
* `words?\b` and `word(?:\b|s\b)` both match `word` or `words` followed
  by end-of-string or a non-word character;
* the keyword alternation backtracks, so each alternative is tried with
  the full continuation (at most one can fully match);
* `re.search` returns the leftmost position at which the whole pattern
  matches. -/

/-- Regex `\w`: ASCII word character. -/
def isWordChar (c : Char) : Bool := c.isAlphanum || c = Char.ofNat 95

/-- Match a literal, returning the rest of the input. -/
def dropLit : List Char → List Char → Option (List Char)
  | [], input => some input
  | _ :: _, [] => none
  | p :: ps, c :: cs => if c = p then dropLit ps cs else none

/-- `\s+`: at least one whitespace character, consumed maximally. -/
def takeWs : List Char → Option (List Char)
  | [] => none
  | c :: cs =>
      if c.isWhitespace then some (cs.dropWhile Char.isWhitespace) else none

/-- `(\d{2,5})\s`-context digits: the maximal digit run here, required to
have length 2-5; returns its value and the rest. -/
def takeDigits25 (input : List Char) : Option (ℕ × List Char) :=
  let run := input.takeWhile Char.isDigit
  if 2 ≤ run.length ∧ run.length ≤ 5 then
    some (parseDigits run, input.dropWhile Char.isDigit)
  else none

/-- `\b` before a word character: the previous character is absent or not
a word character. -/
def boundaryOk (prev : Option Char) : Bool :=
  match prev with
  | none => true
  | some c => !isWordChar c

/-- `words?\b` (equivalently `word(?:\b|s\b)`): `word`, an optional `s`,
then end-of-string or a non-word character. -/
def matchWordsEnd (input : List Char) : Bool :=
  match dropLit ("word".data) input with
  | none => false
  | some rest =>
    match rest with
    | [] => true
    | c :: r1 =>
        if c = 's' then
          match r1 with
          | [] => true
          | d :: _ => !isWordChar d
        else !isWordChar c

/-- The shared tail `\s+(\d{2,5})\s+words?\b` of patterns 1 and 2. -/
def matchNumWords (input : List Char) : Option ℕ :=
  match takeWs input with
  | none => none
  | some r2 =>
    match takeDigits25 r2 with
    | none => none
    | some (n, r3) =>
      match takeWs r3 with
      | none => none
      | some r4 => if matchWordsEnd r4 then some n else none

/-- The keyword alternation `in|into|about|around|approximately|approx\.?`
in regex order (`approx\.?` greedily tries the dotted form first). -/
def kw1List : List (List Char) :=
  ["in".data, "into".data, "about".data, "around".data,
   "approximately".data, "approx.".data, "approx".data]

/-- Pattern 1 anchored at the current position (`prev` is the preceding
character, for `\b`). -/
def matchP1At (prev : Option Char) (input : List Char) : Option ℕ :=
  if boundaryOk prev then
    (kw1List.filterMap (fun kw => (dropLit kw input).bind matchNumWords)).head?
  else none

/-- Pattern 2 `\bsummary\s+of\s+(\d{2,5})\s+words?\b` anchored at the
current position. -/
def matchP2At (prev : Option Char) (input : List Char) : Option ℕ :=
  if boundaryOk prev then
    (dropLit ("summary".data) input).bind (fun r1 =>
      (takeWs r1).bind (fun r2 =>
        (dropLit ("of".data) r2).bind matchNumWords))
  else none

/-- Pattern 3 `\b(\d{2,5})\s+word(?:\b|s\b)` anchored at the current
position. -/
def matchP3At (prev : Option Char) (input : List Char) : Option ℕ :=
  if boundaryOk prev then
    match takeDigits25 input with
    | none => none
    | some (n, r1) =>
      match takeWs r1 with
      | none => none
      | some r2 => if matchWordsEnd r2 then some n else none
  else none

/-- `re.search`: try the anchored matcher at each position from the left,
threading the previous character for `\b`; the first position with a full
match wins. -/
def reSearchAux (matchAt : Option Char → List Char → Option ℕ) :
    Option Char → List Char → Option ℕ
  | _, [] => none
  | prev, c :: cs =>
    match matchAt prev (c :: cs) with
    | some n => some n
    | none => reSearchAux matchAt (some c) cs

/-- `re.search` over a whole character list. -/
def reSearch (matchAt : Option Char → List Char → Option ℕ)
    (l : List Char) : Option ℕ :=
  reSearchAux matchAt none l

/-- The per-pattern acceptance test of `_extract_target_from_prompt`
(lines 612-615): a matched number is returned iff `min_target ≤ N ≤
original_words`, where `min_target` is 5 for documents under 50 words and
10 otherwise; on failure the next pattern is tried. -/
def acceptPromptTarget (original_words : ℕ) (res : Option ℕ) : Option ℕ :=
  match res with
  | some t =>
      let min_target := if original_words < 50 then 5 else 10
      if min_target ≤ t ∧ t ≤ original_words then some t else none
  | none => none

/-- `_extract_target_from_prompt` (mode_5.py lines 600-616): each pattern
contributes only the first (leftmost) match `re.search` finds; the first
pattern whose first match passes the range test wins. -/
def extract_target_from_prompt (original_words : ℕ) (prompt : String) :
    Option ℕ :=
  let l := prompt.data.map Char.toLower
  match acceptPromptTarget original_words (reSearch matchP1At l) with
  | some t => some t
  | none =>
    match acceptPromptTarget original_words (reSearch matchP2At l) with
    | some t => some t
    | none => acceptPromptTarget original_words (reSearch matchP3At l)

/-! ### Direct length-enforcement loop (_direct_summarize, mode_5.py
lines 375-456) -/

/-- `int(target * 0.92)`: the lower edge of the acceptance band. -/
def bandMin (target : ℕ) : ℕ := 92 * target / 100

/-- `int(target * 1.08)`: the upper edge of the acceptance band. -/
def bandMax (target : ℕ) : ℕ := 108 * target / 100

/-- `min_acceptable <= actual_words <= max_acceptable`. -/
def inBand (target actual : ℕ) : Prop :=
  bandMin target ≤ actual ∧ actual ≤ bandMax target

instance (target actual : ℕ) : Decidable (inBand target actual) :=
  instDecidableAnd

/-- `deviation = abs(actual_words - target_words)`. -/
def attemptDev (target actual : ℕ) : ℕ :=
  Int.natAbs ((actual : ℤ) - (target : ℤ))

/-- The retry loop of `_direct_summarize`, with the per-attempt pipeline
(generate → truncation repair → `_clean_summary_output`) abstracted as the
function `cleaned : attempt number → cleaned summary text`.  The loop
returns the first attempt whose word count lies in the acceptance band;
otherwise it tracks the attempt with strictly smallest deviation and
returns it once the attempts are exhausted.  `remaining` counts attempts
left (`max_attempts - attempt + 1`); the impossible all-attempts-consumed-
with-no-best state returns `""` (in Python it would fault on `None`). -/
def directLoopGo (target : ℕ) (cleaned : ℕ → String) :
    ℕ → ℕ → Option (String × ℕ) → String
  | 0, _, best =>
      match best with
      | some (s, _) => s
      | none => ""
  | remaining + 1, attempt, best =>
      let s := cleaned attempt
      let actual := splitWordCount s
      if inBand target actual then s
      else
        let dev := attemptDev target actual
        let best2 :=
          match best with
          | none => some (s, dev)
          | some (b, bd) => if dev < bd then some (s, dev) else some (b, bd)
        directLoopGo target cleaned remaining (attempt + 1) best2

/-- `_direct_summarize` with `max_attempts = 3`, starting at attempt 1
with no best-so-far. -/
def direct_summarize (target : ℕ) (cleaned : ℕ → String) : String :=
  directLoopGo target cleaned 3 1 none

/-! ### Data models (src/services/models.py) and merge
(src/services/merge.py) -/

/-- `PartialSummary` (models.py); `compression_ratio` is an exact
rational. -/
structure PartialSummary where
  chunk_id : String
  index : ℕ
  text : String
  word_count : ℕ
  compression_ratio : ℚ
deriving DecidableEq

/-- `MergedDraft` (merge.py). -/
structure MergedDraft where
  markdown : String
  total_summary_words : ℕ
  partial_count : ℕ
  original_words : Option ℕ
  combined_ratio : Option ℚ
deriving DecidableEq

/-- `heading_template.format(n=p.index + 1)` with the default template. -/
def chunkHeading (n : ℕ) : String := "## Summary of Chunk " ++ toString n

/-- Python `sorted(partials, key=lambda p: p.index)`: a stable sort by
index (insertion sort is stable; with the distinct indices of the claims
any stable sort gives the same list). -/
def sortByIndex (parts : List PartialSummary) : List PartialSummary :=
  List.insertionSort (fun a b => a.index ≤ b.index) parts

/-- `merge_partial_summaries` (merge.py lines 30-78), with
`include_index_comment = False` and the default heading template. -/
def merge_partial_summaries (parts : List PartialSummary)
    (original_words : Option ℕ) : MergedDraft :=
  match parts with
  | [] =>
      { markdown := ""
        total_summary_words := 0
        partial_count := 0
        original_words := original_words
        combined_ratio :=
          match original_words with
          | some ow => if ow ≠ 0 then some 0 else none
          | none => none }
  | _ =>
      let ordered := sortByIndex parts
      let lines :=
        (ordered.map (fun p =>
          [chunkHeading (p.index + 1), pyStrip p.text, ""])).flatten
      let total := (ordered.map (fun p => p.word_count)).sum
      let md := pyRstrip (String.intercalate "\n" lines)
      { markdown := md
        total_summary_words := total
        partial_count := ordered.length
        original_words := original_words
        combined_ratio :=
          match original_words with
          | some ow => if 0 < ow then some ((total : ℚ) / (ow : ℚ)) else none
          | none => none }

/-! ### Concurrent per-chunk fan-out (src/services/summarizer.py) -/

/-- `Chunk` (models.py). -/
structure Chunk where
  id : String
  index : ℕ
  text : String
  word_count : ℕ
  token_estimate : ℕ
deriving DecidableEq

/-- `summarize_chunk` (summarizer.py lines 37-64) with the external
`generate` call abstracted as `gen`.  The produced `PartialSummary` keeps
the chunk id and index, the stripped generation output, its word count,
and the achieved compression ratio. -/
def summarize_chunk (gen : Chunk → String) (c : Chunk) : PartialSummary :=
  let content := gen c
  let wc := splitWordCount content
  { chunk_id := c.id
    index := c.index
    text := pyStrip content
    word_count := wc
    compression_ratio :=
      if c.word_count ≠ 0 then (wc : ℚ) / (c.word_count : ℚ) else 1 }

/-- `summarize_chunks` (summarizer.py lines 67-92): the semaphore-bound
fan-out writes each result into the pre-sized slot `results[c.index]`, and
completed slots are finally filtered for `None`.  Concurrency is modelled
by an explicit completion order: `order` lists the positions of the chunks
in the order their tasks finish writing; any interleaving of the tasks is
equivalent to some such order because each task writes exactly one slot. -/
def summarize_chunks (gen : Chunk → String) (chunks : List Chunk)
    (order : List ℕ) : List PartialSummary :=
  let init : List (Option PartialSummary) := List.replicate chunks.length none
  let slots := order.foldl
    (fun acc i =>
      match chunks[i]? with
      | some c => acc.set c.index (some (summarize_chunk gen c))
      | none => acc)
    init
  slots.reduceOption

/-! ### Output formatting (src/services/formatter.py) -/

/-- `FinalizedSummary` (finalize.py). -/
structure FinalizedSummary where
  text : String
  summary_words : ℕ
  target_words : ℕ
  achieved_ratio : ℚ
deriving DecidableEq

/-- The response dict built by `format_output`: the always-present numeric
fields plus the optional text fields and the unknown-format warning. -/
structure FormatResult where
  original_words : ℕ
  summary_words : ℕ
  percent : ℚ
  markdown_summary : Option String
  plain_summary : Option String
  output_format_warning : Option String
deriving DecidableEq

/-- `format_output` (formatter.py lines 99-128).  The Markdown-to-plain
converter is taken as the parameter `toPlain`: no claim depends on its
internals and the unknown-format path never invokes it. -/
def format_output (toPlain : String → String) (finalized : FinalizedSummary)
    (original_words : ℕ) (output_format : String) : FormatResult :=
  let percent : ℚ :=
    if original_words ≠ 0 then
      (finalized.summary_words : ℚ) / (original_words : ℚ)
    else 1
  let fmt := lowerStr output_format
  let md := finalized.text
  if fmt = "markdown" then
    { original_words := original_words, summary_words := finalized.summary_words
      percent := percent, markdown_summary := some md
      plain_summary := none, output_format_warning := none }
  else if fmt = "plain" then
    { original_words := original_words, summary_words := finalized.summary_words
      percent := percent, markdown_summary := none
      plain_summary := some (toPlain md), output_format_warning := none }
  else if fmt = "both" then
    { original_words := original_words, summary_words := finalized.summary_words
      percent := percent, markdown_summary := some md
      plain_summary := some (toPlain md), output_format_warning := none }
  else
    { original_words := original_words, summary_words := finalized.summary_words
      percent := percent, markdown_summary := some md
      plain_summary := none
      output_format_warning :=
        some ("Unknown format " ++ output_format ++ ", defaulted to markdown.") }


/-! ## Theorems -/


lemma spanLoop_unfold (total target stride : ℕ) (hs : 0 < stride) (start : ℕ) :
    spanLoop total target stride hs start =
      if start < total then
        (start, min total (start + target)) ::
          (if total ≤ start + target then []
           else spanLoop total target stride hs (start + stride))
      else [] := by
  rw [spanLoop]
  by_cases h : start < total
  · simp only [dif_pos h, if_pos h]
    by_cases h2 : total ≤ start + target
    · have hm : min total (start + target) = total := min_eq_left h2
      simp [hm, h2]
    · have hm : min total (start + target) = start + target :=
        min_eq_right (by omega)
      simp [hm, h2]
  · simp [h]

/-- Loop invariant of the span-planning while-loop: every emitted span starts
at or after the cursor, starts inside the document, and ends at
`min total (start + target)`; consecutive starts differ by exactly `stride`;
when the cursor is inside the document the list is nonempty, starts at the
cursor, ends at `total`, and (for `stride ≤ target`) covers every word index
from the cursor to `total`. -/
lemma spanLoop_spec (total target stride : ℕ) (hs : 0 < stride)
    (hst : stride ≤ target) (start : ℕ) :
    (∀ sp ∈ spanLoop total target stride hs start,
        start ≤ sp.1 ∧ sp.1 < total ∧ sp.2 = min total (sp.1 + target)) ∧
    List.Chain' (fun a b => b.1 = a.1 + stride)
      (spanLoop total target stride hs start) ∧
    (start < total →
      (spanLoop total target stride hs start).head?.map Prod.fst
        = some start) ∧
    (start < total →
      ((spanLoop total target stride hs start).getLast?).map Prod.snd
        = some total) ∧
    (∀ k, start ≤ k → k < total →
      ∃ sp ∈ spanLoop total target stride hs start, sp.1 ≤ k ∧ k < sp.2) := by
  induction start using spanLoop.induct total target stride hs with
  | case1 x hx e he =>
      have he2 : total ≤ x + target := by simpa [e] using he
      have hL : spanLoop total target stride hs x = [(x, total)] := by
        rw [spanLoop_unfold]
        simp [hx, he2, min_eq_left he2]
      refine ⟨?_, ?_, ?_, ?_, ?_⟩
      · intro sp hsp
        rw [hL] at hsp
        simp at hsp
        subst hsp
        simp [min_eq_left he2]
        omega
      · rw [hL]; simp
      · intro _; rw [hL]; simp
      · intro _; rw [hL]; simp
      · intro k hk1 hk2
        refine ⟨(x, total), ?_, by simpa using hk1, by simpa using hk2⟩
        rw [hL]; simp
  | case2 x hx e he ih =>
      have he2 : ¬ total ≤ x + target := by simpa [e] using he
      have hmin : min total (x + target) = x + target := min_eq_right (by omega)
      have hL : spanLoop total target stride hs x
          = (x, x + target) :: spanLoop total target stride hs (x + stride) := by
        rw [spanLoop_unfold]
        simp [hx, he2, hmin]
      obtain ⟨ihmem, ihchain, ihhead, ihlast, ihcov⟩ := ih
      have hnext : x + stride < total := by omega
      refine ⟨?_, ?_, ?_, ?_, ?_⟩
      · intro sp hsp
        rw [hL] at hsp
        rcases List.mem_cons.1 hsp with h | h
        · subst h; simp [hmin]; omega
        · have := ihmem sp h
          exact ⟨by omega, this.2.1, this.2.2⟩
      · rw [hL]
        rw [List.chain'_cons']
        refine ⟨?_, ihchain⟩
        intro b hb
        have hh := ihhead hnext
        cases hhead : (spanLoop total target stride hs (x + stride)).head? with
        | none => simp [hhead] at hb
        | some c =>
            simp [hhead] at hb hh
            subst hb
            omega
      · intro _; rw [hL]; simp
      · intro _
        rw [hL]
        have hh := ihlast hnext
        cases htail : spanLoop total target stride hs (x + stride) with
        | nil => rw [htail] at hh; simp at hh
        | cons d l2 =>
            rw [htail] at hh
            rw [List.getLast?_cons_cons]
            exact hh
      · intro k hk1 hk2
        by_cases hk3 : k < x + target
        · refine ⟨(x, x + target), ?_, by simpa using hk1, by simpa using hk3⟩
          rw [hL]; simp
        · obtain ⟨sp, hsp, h1, h2⟩ := ihcov k (by omega) hk2
          refine ⟨sp, ?_, h1, h2⟩
          rw [hL]
          exact List.mem_cons_of_mem _ hsp
  | case3 x hx =>
      have hL : spanLoop total target stride hs x = [] := by
        rw [spanLoop_unfold]; simp [hx]
      refine ⟨?_, ?_, ?_, ?_, ?_⟩
      · intro sp hsp; rw [hL] at hsp; simp at hsp
      · rw [hL]; simp
      · intro h; omega
      · intro h; omega
      · intro k hk1 hk2; omega



/-- The tail-merge step preserves every guarantee needed for the chunk-plan
theorem: spans stay nonempty and inside the document, span length is bounded
by `target + 2*target/5` (the merged tail may exceed the nominal size by the
short tail it absorbs), coverage of word indices is preserved, starts become
strictly increasing, and the first start is unchanged. -/
lemma tailMerge_spec (total target stride : ℕ) (hs : 0 < stride)
    (hst : stride ≤ target) (htarget : 0 < target) :
    ∀ L : List (ℕ × ℕ),
      (∀ sp ∈ L, sp.1 < total ∧ sp.2 = min total (sp.1 + target)) →
      List.Chain' (fun a b => b.1 = a.1 + stride) L →
      (∀ sp ∈ tailMerge target L,
          sp.1 < sp.2 ∧ sp.2 ≤ total ∧ sp.2 - sp.1 ≤ target + 2 * target / 5) ∧
      (∀ k, (∃ sp ∈ L, sp.1 ≤ k ∧ k < sp.2) →
          ∃ sp ∈ tailMerge target L, sp.1 ≤ k ∧ k < sp.2) ∧
      List.Chain' (fun a b => a.1 < b.1) (tailMerge target L) ∧
      (tailMerge target L).head?.map Prod.fst = L.head?.map Prod.fst := by
  intro L
  induction L using tailMerge.induct target with
  | case1 => intro _ _; simp [tailMerge]
  | case2 s =>
      intro hmem _
      have hS := hmem s (by simp)
      refine ⟨?_, ?_, ?_, ?_⟩
      · intro sp hsp
        simp [tailMerge] at hsp
        subst hsp
        refine ⟨by omega, by omega, by omega⟩
      · intro k hk
        simpa [tailMerge] using hk
      · simp [tailMerge]
      · simp [tailMerge]
  | case3 p l hshort =>
      intro hmem hchain
      have hP := hmem p (by simp)
      have hLl := hmem l (by simp)
      have hstep : l.1 = p.1 + stride := by
        have := List.chain'_cons.1 hchain
        exact this.1
      have hres : tailMerge target [p, l] = [(p.1, l.2)] := by
        simp [tailMerge, hshort]
      refine ⟨?_, ?_, ?_, ?_⟩
      · intro sp hsp
        rw [hres] at hsp
        simp at hsp
        subst hsp
        refine ⟨by omega, by omega, by omega⟩
      · intro k hk
        obtain ⟨sp, hsp, h1, h2⟩ := hk
        simp at hsp
        refine ⟨(p.1, l.2), by rw [hres]; simp, ?_, ?_⟩ <;>
          rcases hsp with h | h <;> subst h <;> omega
      · rw [hres]; simp
      · rw [hres]; simp
  | case4 p l hshort =>
      intro hmem hchain
      have hP := hmem p (by simp)
      have hLl := hmem l (by simp)
      have hstep : l.1 = p.1 + stride := by
        have := List.chain'_cons.1 hchain
        exact this.1
      have hres : tailMerge target [p, l] = [p, l] := by
        simp [tailMerge, hshort]
      refine ⟨?_, ?_, ?_, ?_⟩
      · intro sp hsp
        rw [hres] at hsp
        simp at hsp
        rcases hsp with h | h <;> subst h <;>
          refine ⟨by omega, by omega, by omega⟩
      · intro k hk
        rw [hres]; exact hk
      · rw [hres]
        refine List.chain'_cons.2 ⟨by omega, by simp⟩
      · rw [hres]
  | case5 p q r rest ih =>
      intro hmem hchain
      have hmem2 : ∀ sp ∈ q :: r :: rest,
          sp.1 < total ∧ sp.2 = min total (sp.1 + target) := by
        intro sp hsp
        exact hmem sp (List.mem_cons_of_mem _ hsp)
      have hchain2 : List.Chain' (fun a b => b.1 = a.1 + stride) (q :: r :: rest) :=
        (List.chain'_cons.1 hchain).2
      have hstep : q.1 = p.1 + stride := (List.chain'_cons.1 hchain).1
      obtain ⟨ihA, ihB, ihC, ihD⟩ := ih hmem2 hchain2
      have hP := hmem p (by simp)
      have hres : tailMerge target (p :: q :: r :: rest)
          = p :: tailMerge target (q :: r :: rest) := by
        simp [tailMerge]
      refine ⟨?_, ?_, ?_, ?_⟩
      · intro sp hsp
        rw [hres] at hsp
        rcases List.mem_cons.1 hsp with h | h
        · subst h; refine ⟨by omega, by omega, by omega⟩
        · exact ihA sp h
      · intro k hk
        obtain ⟨sp, hsp, h1, h2⟩ := hk
        rcases List.mem_cons.1 hsp with h | h
        · subst h
          exact ⟨sp, by rw [hres]; exact List.mem_cons_self _ _, h1, h2⟩
        · obtain ⟨sp2, hsp2, g1, g2⟩ := ihB k ⟨sp, h, h1, h2⟩
          exact ⟨sp2, by rw [hres]; exact List.mem_cons_of_mem _ hsp2, g1, g2⟩
      · rw [hres]
        rw [List.chain'_cons']
        refine ⟨?_, ihC⟩
        intro b hb
        have : (tailMerge target (q :: r :: rest)).head?.map Prod.fst = some q.1 := by
          rw [ihD]; simp
        cases hh : (tailMerge target (q :: r :: rest)).head? with
        | none => simp [hh] at hb
        | some c =>
            simp [hh] at hb this
            subst hb
            omega
      · rw [hres]; simp



lemma ratTrunc_nonneg {q : ℚ} (h : 0 ≤ q) : 0 ≤ ratTrunc q := by
  unfold ratTrunc
  exact Int.tdiv_nonneg (Rat.num_nonneg.2 h) (by positivity)

/-- C1 (amended): for nonnegative overlap fractions, the spans cover
[0,total) with no gaps, have strictly increasing starts, no empty span,
every span at most 1.4x the effective chunk size, and a single span
(0,total) when 0 < total <= chunk size. -/
theorem plan_chunk_word_spans_properties (total : ℕ) (tw : ℤ) (pct : ℚ)
    (hpct : 0 ≤ pct) :
    (∀ k < total, ∃ sp ∈ plan_chunk_word_spans total tw pct,
        sp.1 ≤ k ∧ k < sp.2) ∧
    (plan_chunk_word_spans total tw pct).Pairwise (fun a b => a.1 < b.1) ∧
    (∀ sp ∈ plan_chunk_word_spans total tw pct, sp.1 < sp.2 ∧ sp.2 ≤ total) ∧
    (∀ sp ∈ plan_chunk_word_spans total tw pct,
        sp.2 - sp.1 ≤ (max 50 tw).toNat + 2 * (max 50 tw).toNat / 5) ∧
    (0 < total → (total : ℤ) ≤ max 50 tw →
        plan_chunk_word_spans total tw pct = [(0, total)]) := by
  by_cases h0 : total = 0
  · subst h0
    simp [plan_chunk_word_spans]
  · have hpos : 0 < total := Nat.pos_of_ne_zero h0
    set target : ℕ := (max 50 tw).toNat with htarget_def
    have htarget50 : 50 ≤ target := by
      have : (50 : ℤ) ≤ max 50 tw := le_max_left _ _
      omega
    set ow : ℤ := ratTrunc ((target : ℚ) * pct) with how_def
    have how : 0 ≤ ow := ratTrunc_nonneg (by positivity)
    set stride : ℕ := (max 10 ((target : ℤ) - ow)).toNat with hstride_def
    have hs : 0 < stride := by
      have : (10 : ℤ) ≤ max 10 ((target : ℤ) - ow) := le_max_left _ _
      omega
    have hst : stride ≤ target := by
      have h1 : max 10 ((target : ℤ) - ow) ≤ (target : ℤ) := by
        apply max_le
        · omega
        · omega
      omega
    have hplan : plan_chunk_word_spans total tw pct
        = tailMerge target (spanLoop total target stride (by omega) 0) := by
      rw [plan_chunk_word_spans]
      simp only [if_neg h0]
    obtain ⟨lmem, lchain, lhead, llast, lcov⟩ :=
      spanLoop_spec total target stride (by omega) hst 0
    have hmem2 : ∀ sp ∈ spanLoop total target stride (by omega) 0,
        sp.1 < total ∧ sp.2 = min total (sp.1 + target) := by
      intro sp hsp
      exact ⟨(lmem sp hsp).2.1, (lmem sp hsp).2.2⟩
    obtain ⟨tA, tB, tC, tD⟩ :=
      tailMerge_spec total target stride (by omega) hst (by omega)
        (spanLoop total target stride (by omega) 0) hmem2 lchain
    refine ⟨?_, ?_, ?_, ?_, ?_⟩
    · intro k hk
      rw [hplan]
      exact tB k (lcov k (Nat.zero_le _) hk)
    · rw [hplan]
      haveI : IsTrans (ℕ × ℕ) (fun a b => a.1 < b.1) :=
        ⟨fun _ _ _ h1 h2 => lt_trans h1 h2⟩
      exact List.chain'_iff_pairwise.1 tC
    · intro sp hsp
      rw [hplan] at hsp
      exact ⟨(tA sp hsp).1, (tA sp hsp).2.1⟩
    · intro sp hsp
      rw [hplan] at hsp
      exact (tA sp hsp).2.2
    · intro _ hle
      have htt : total ≤ target := by omega
      have hL : spanLoop total target stride (by omega : 0 < stride) 0
          = [(0, total)] := by
        rw [spanLoop_unfold]
        simp [hpos, htt, min_eq_left htt]
      rw [hplan, hL]
      simp [tailMerge]



lemma plan_chunk_word_spans_eval (total : ℕ) (tw : ℤ) (pct : ℚ)
    (target stride : ℕ) (ow : ℤ) (hs : 0 < stride)
    (h0 : total ≠ 0)
    (ht : (max 50 tw).toNat = target)
    (how : ratTrunc ((target : ℚ) * pct) = ow)
    (hstr : (max 10 ((target : ℤ) - ow)).toNat = stride) :
    plan_chunk_word_spans total tw pct
      = tailMerge target (spanLoop total target stride hs 0) := by
  rw [plan_chunk_word_spans]
  simp only [if_neg h0, ht, how, hstr]

lemma ratTrunc_intCast (n : ℤ) : ratTrunc ((n : ℤ) : ℚ) = n := by
  simp [ratTrunc, Int.tdiv_one]

lemma plan_ex_1250 : plan_chunk_word_spans 1250 1000 (12/100) = [(0, 1250)] := by
  have h := plan_chunk_word_spans_eval 1250 1000 (12/100) 1000 880 120
    (by omega) (by omega) (by decide)
    (by rw [show ((1000 : ℕ) : ℚ) * (12/100) = ((120 : ℤ) : ℚ) by norm_num,
          ratTrunc_intCast])
    (by decide)
  rw [h]
  simp [spanLoop_unfold, tailMerge, min_def]

lemma plan_ex_neg : plan_chunk_word_spans 200 50 (-2 : ℚ)
    = [(0, 50), (150, 200)] := by
  have h := plan_chunk_word_spans_eval 200 50 (-2 : ℚ) 50 150 (-100)
    (by omega) (by omega) (by decide)
    (by rw [show ((50 : ℕ) : ℚ) * (-2 : ℚ) = ((-100 : ℤ) : ℚ) by norm_num,
          ratTrunc_intCast])
    (by decide)
  rw [h]
  simp [spanLoop_unfold, tailMerge, min_def]

/-- C1 counterexample: the claim as stated fails on the code.  With the
default configuration (chunk size 1000, overlap 0.12) and a 1250-word
document the tail-merge produces the single span (0,1250), which is longer
than the nominal chunk size; and with a negative overlap fraction the spans
leave a gap (word 100 of a 200-word document is uncovered). -/
theorem plan_chunk_word_spans_claim_counterexample :
    (∃ sp ∈ plan_chunk_word_spans 1250 1000 (12/100), 1000 < sp.2 - sp.1) ∧
    ¬ (∃ sp ∈ plan_chunk_word_spans 200 50 (-2 : ℚ),
        sp.1 ≤ 100 ∧ 100 < sp.2) := by
  rw [plan_ex_1250, plan_ex_neg]
  decide

theorem plan_chunk_word_spans_properties_witness :
    plan_chunk_word_spans 500 1000 (12/100) = [(0, 500)] :=
  (plan_chunk_word_spans_properties 500 1000 (12/100) (by norm_num)).2.2.2.2
    (by norm_num) (by norm_num)


/-- C10 (amended): every length-constraint input yields a token budget in
[60, 8000]; no constraint yields exactly 300; a words constraint with a
present nonzero value follows the clamp formula
max(60, min(int(clamp(v,20,20000)/0.75), 8000)), while a zero or absent
value is first replaced by the default 300 and yields 400. -/
theorem calculate_max_tokens_spec :
    (∀ c, 60 ≤ calculate_max_tokens c ∧ calculate_max_tokens c ≤ 8000) ∧
    calculate_max_tokens none = 300 ∧
    (∀ v : ℤ, v ≠ 0 →
      calculate_max_tokens (some (some "words", some v)) = c10_words_formula v) ∧
    calculate_max_tokens (some (some "words", some 0)) = 400 := by
  refine ⟨?_, rfl, ?_, by decide⟩
  · intro c
    rcases c with _ | ⟨ty, val⟩
    · constructor <;> decide
    · simp only [calculate_max_tokens]
      by_cases h0 : ty = none ∧ val = none
      · rw [if_pos h0]; constructor <;> decide
      · rw [if_neg h0]
        set lv : ℤ := max 20 (min (match val with
          | none => 300
          | some v => if v = 0 then 300 else v) 20000) with hlv
        have hlo : 20 ≤ lv := le_max_left _ _
        have hhi : lv ≤ 20000 := by
          rw [hlv]
          apply max_le
          · omega
          · exact min_le_right _ _
        by_cases hty : ty.getD "words" = "characters"
        · rw [if_pos hty]
          constructor <;> omega
        · rw [if_neg hty]
          constructor <;> omega
  · intro v hv
    simp [calculate_max_tokens, c10_words_formula, hv]

theorem calculate_max_tokens_spec_witness :
    calculate_max_tokens (some (some "words", some 100)) = c10_words_formula 100 :=
  calculate_max_tokens_spec.2.2.1 100 (by decide)

/-- C10 counterexample: for the words constraint with value 0 the code
substitutes the default 300 and returns 400, while the claimed formula
gives 60. -/
theorem calculate_max_tokens_claim_counterexample :
    calculate_max_tokens (some (some "words", some 0)) = 400 ∧
    c10_words_formula 0 = 60 ∧ (400 : ℤ) ≠ 60 := by
  refine ⟨by decide, by decide, by decide⟩

/-- C9: any output-format string that is not markdown/plain/both falls
back to the structured markdown text together with a warning in the
response, and `format_output` is total (never an error). -/
theorem format_output_unknown_format (toPlain : String → String)
    (finalized : FinalizedSummary) (ow : ℕ) (fmt : String)
    (h1 : lowerStr fmt ≠ "markdown") (h2 : lowerStr fmt ≠ "plain")
    (h3 : lowerStr fmt ≠ "both") :
    (format_output toPlain finalized ow fmt).markdown_summary
        = some finalized.text ∧
    (format_output toPlain finalized ow fmt).output_format_warning
        = some ("Unknown format " ++ fmt ++ ", defaulted to markdown.") := by
  simp [format_output, h1, h2, h3]

theorem format_output_unknown_format_witness :
    (format_output id ⟨"summary text", 10, 10, 1⟩ 100 "xml").markdown_summary
        = some "summary text" ∧
    (format_output id ⟨"summary text", 10, 10, 1⟩ 100 "xml").output_format_warning
        = some "Unknown format xml, defaulted to markdown." :=
  format_output_unknown_format id ⟨"summary text", 10, 10, 1⟩ 100 "xml"
    (by decide) (by decide) (by decide)

/-- C7: with no prompt-embedded target, an explicit target above the
document length is capped (UserAbsoluteCapped), a positive target within
the document length is used as-is (UserAbsolute), and a non-positive
target is treated exactly as if no target was provided (never an error). -/
theorem explicit_target_resolution (total : ℕ) (t : ℤ) :
    ((total : ℤ) < t →
      resolve_effective_target total (some t) none
        = (total, TargetMode.user_absolute_capped)) ∧
    (0 < t → t ≤ (total : ℤ) →
      resolve_effective_target total (some t) none
        = (t.toNat, TargetMode.user_absolute)) ∧
    (t ≤ 0 →
      resolve_effective_target total (some t) none
        = resolve_effective_target total none none) := by
  refine ⟨?_, ?_, ?_⟩
  · intro h
    have hpos : 0 < t := by omega
    simp [resolve_effective_target, hpos, h]
  · intro h1 h2
    simp [resolve_effective_target, h1, show ¬ ((total : ℤ) < t) from by omega]
  · intro h
    simp [resolve_effective_target, show ¬ (0 < t) from by omega]

theorem explicit_target_resolution_witness :
    resolve_effective_target 450 (some 5000) none
      = (450, TargetMode.user_absolute_capped) :=
  (explicit_target_resolution 450 5000).1 (by decide)


/-- C2: the truncation detector (modelled from the spec, since
`is_summary_truncated` is defined in no repository file) classifies as
truncated every non-empty text whose last non-whitespace character is not
terminal punctuation, and every non-empty text whose final word is in the
configured dangling-conjunction/preposition list; the two spec examples
behave as stated. -/
theorem is_summary_truncated_spec :
    (∀ s : String,
        s.data.reverse.dropWhile Char.isWhitespace ≠ [] →
        endsTerminally (s.data.reverse.dropWhile Char.isWhitespace) = false →
        is_summary_truncated s = true) ∧
    (∀ s : String,
        s.data.reverse.dropWhile Char.isWhitespace ≠ [] →
        danglingWords.contains (lastWordCore s) = true →
        is_summary_truncated s = true) ∧
    is_summary_truncated "...the results showed that" = true ∧
    is_summary_truncated "...the results were conclusive." = false := by
  refine ⟨?_, ?_, by decide, by decide⟩
  · intro s h1 h2
    cases hrev : s.data.reverse.dropWhile Char.isWhitespace with
    | nil => exact absurd hrev h1
    | cons c rest =>
        rw [hrev] at h2
        simp [is_summary_truncated, hrev, h2]
  · intro s h1 h2
    cases hrev : s.data.reverse.dropWhile Char.isWhitespace with
    | nil => exact absurd hrev h1
    | cons c rest =>
        simp [is_summary_truncated, hrev]
        exact Or.inl (Or.inr (by simpa using h2))

theorem is_summary_truncated_spec_witness :
    is_summary_truncated "the analysis shows clear trends but" = true :=
  is_summary_truncated_spec.2.1 "the analysis shows clear trends but"
    (by decide) (by decide)

lemma acceptPromptTarget_sound (ow : ℕ) (r : Option ℕ) (n : ℕ)
    (h : acceptPromptTarget ow r = some n) :
    (if ow < 50 then 5 else 10) ≤ n ∧ n ≤ ow := by
  cases r with
  | none => simp [acceptPromptTarget] at h
  | some t =>
      by_cases hin : (if ow < 50 then 5 else 10) ≤ t ∧ t ≤ ow
      · simp [acceptPromptTarget, hin] at h
        omega
      · simp [acceptPromptTarget, hin] at h

lemma extract_target_sound (ow : ℕ) (prompt : String) (n : ℕ)
    (h : extract_target_from_prompt ow prompt = some n) :
    (if ow < 50 then 5 else 10) ≤ n ∧ n ≤ ow := by
  simp only [extract_target_from_prompt] at h
  cases e1 : acceptPromptTarget ow
      (reSearch matchP1At (prompt.data.map Char.toLower)) with
  | some t =>
      rw [e1] at h
      simp at h
      exact h ▸ acceptPromptTarget_sound ow _ t e1
  | none =>
      rw [e1] at h
      simp at h
      cases e2 : acceptPromptTarget ow
          (reSearch matchP2At (prompt.data.map Char.toLower)) with
      | some t =>
          rw [e2] at h
          simp at h
          exact h ▸ acceptPromptTarget_sound ow _ t e2
      | none =>
          rw [e2] at h
          simp at h
          exact acceptPromptTarget_sound ow _ n h

/-- C8 (amended): every accepted prompt target lies in [minAllowed,
originalWords] with minAllowed 5 for documents under 50 words and 10
otherwise; the number N each pattern contributes is the first (leftmost)
match `re.search` finds, and for the first match of the leading pattern
acceptance holds if and only if N is in range; an accepted prompt target
always takes precedence over the explicit parameter (mode PromptExtracted);
and "summarize this in about 250 words" resolves to 250 with that mode. -/
theorem prompt_target_extraction :
    (∀ (ow : ℕ) (prompt : String) (n : ℕ),
        extract_target_from_prompt ow prompt = some n →
        (if ow < 50 then 5 else 10) ≤ n ∧ n ≤ ow) ∧
    (∀ (ow : ℕ) (prompt : String) (n : ℕ),
        reSearch matchP1At (prompt.data.map Char.toLower) = some n →
        (extract_target_from_prompt ow prompt = some n ↔
          ((if ow < 50 then 5 else 10) ≤ n ∧ n ≤ ow))) ∧
    (∀ (total : ℕ) (tw : Option ℤ) (n : ℕ),
        resolve_effective_target total tw (some n) = (n, TargetMode.prompt)) ∧
    extract_target_from_prompt 300 "summarize this in about 250 words"
        = some 250 ∧
    resolve_effective_target 300 (some 120)
        (extract_target_from_prompt 300 "summarize this in about 250 words")
      = (250, TargetMode.prompt) := by
  refine ⟨extract_target_sound, ?_, ?_, by decide, ?_⟩
  · intro ow prompt n h
    constructor
    · intro he
      exact extract_target_sound ow prompt n he
    · intro hr
      simp only [extract_target_from_prompt]
      rw [h]
      simp [acceptPromptTarget, hr]
  · intro total tw n
    rfl
  · have h : extract_target_from_prompt 300 "summarize this in about 250 words"
        = some 250 := by decide
    rw [h]
    rfl

/-- C8 counterexample: acceptance is not an "iff" over phrase occurrences.
On a 300-word document the instruction "in 05 words or in about 250 words"
contains the qualifying phrase "in about 250 words" whose N = 250 lies in
[10, 300] (alone, that phrase extracts 250), yet nothing is accepted:
re.search gives each pattern only its first match, here "in 05 words"
with N = 5, which fails the range test. -/
theorem prompt_target_extraction_claim_counterexample :
    extract_target_from_prompt 300 "in about 250 words" = some 250 ∧
    extract_target_from_prompt 300 "in 05 words or in about 250 words"
        = none ∧
    (10 : ℕ) ≤ 250 ∧ (250 : ℕ) ≤ 300 := by
  refine ⟨by decide, by decide, by decide, by decide⟩

theorem prompt_target_extraction_witness :
    extract_target_from_prompt 120 "write about 100 words" = some 100 :=
  (prompt_target_extraction.2.1 120 "write about 100 words" 100
    (by decide)).2 (by decide)

/-- C4 (amended): after the clamp of compute_baseline_metrics the resolved
target always lies in [MIN_EXTRACTED_WORDS, MAX_FINAL_WORDS] = [20, 2000];
and the pre-clamp resolved target never exceeds originalWords except on
the small-document default path, whose fixed 100-word default may exceed
a shorter document. -/
theorem resolved_target_invariants (total : ℕ) (tw : Option ℤ)
    (pt : Option ℕ)
    (hpt : ∀ n, pt = some n → (if total < 50 then 5 else 10) ≤ n ∧ n ≤ total) :
    (∀ r, compute_baseline_final_target
          (resolve_effective_target total tw pt).1 = some r →
        20 ≤ r ∧ r ≤ 2000) ∧
    ((resolve_effective_target total tw pt).2 ≠ TargetMode.small_default_100 →
        (resolve_effective_target total tw pt).1 ≤ total) := by
  constructor
  · intro r h
    by_cases h0 : (resolve_effective_target total tw pt).1 = 0
    · simp [compute_baseline_final_target, h0] at h
    · simp [compute_baseline_final_target, h0] at h
      omega
  · intro hmode
    cases pt with
    | some n =>
        have := hpt n rfl
        simp [resolve_effective_target]
        omega
    | none =>
        cases tw with
        | none =>
            by_cases h5 : total < 500
            · exact absurd (by simp [resolve_effective_target, defaultTarget, h5])
                hmode
            · simp [resolve_effective_target, defaultTarget, h5]
        | some t =>
            by_cases hpos : 0 < t
            · by_cases hcap : (total : ℤ) < t
              · simp [resolve_effective_target, hpos, hcap]
              · simp [resolve_effective_target, hpos, hcap]
                omega
            · by_cases h5 : total < 500
              · exact absurd
                  (by simp [resolve_effective_target, defaultTarget, hpos, h5])
                  hmode
              · simp [resolve_effective_target, defaultTarget, hpos, h5]

/-- C4 counterexample: a 50-word document with no explicit and no prompt
target resolves to the fixed small-document default of 100 words, which
exceeds originalWords = 50 (and survives the baseline clamp unchanged). -/
theorem resolved_target_claim_counterexample :
    resolve_effective_target 50 none none = (100, TargetMode.small_default_100) ∧
    compute_baseline_final_target 100 = some 100 ∧ ¬ (100 ≤ 50) := by
  refine ⟨by decide, by decide, by decide⟩

theorem resolved_target_invariants_witness :
    (resolve_effective_target 450 (some 5000) none).1 ≤ 450 :=
  (resolved_target_invariants 450 (some 5000) none
    (by intro n h; cases h)).2 (by decide)


/-- C3: the direct length-enforcement loop returns the first of at most 3
attempts whose cleaned word count lies in the acceptance band
[int(0.92*target), int(1.08*target)], and when no attempt lands in the
band it returns (totally, without raising) an attempt whose absolute
deviation from the target is minimal among all three attempts.  The
per-attempt generate/repair/clean pipeline is abstracted as `cleaned`. -/
theorem direct_summarize_spec (target : ℕ) (cleaned : ℕ → String) :
    (inBand target (splitWordCount (cleaned 1)) →
        direct_summarize target cleaned = cleaned 1) ∧
    (¬ inBand target (splitWordCount (cleaned 1)) →
     inBand target (splitWordCount (cleaned 2)) →
        direct_summarize target cleaned = cleaned 2) ∧
    (¬ inBand target (splitWordCount (cleaned 1)) →
     ¬ inBand target (splitWordCount (cleaned 2)) →
     inBand target (splitWordCount (cleaned 3)) →
        direct_summarize target cleaned = cleaned 3) ∧
    (¬ inBand target (splitWordCount (cleaned 1)) →
     ¬ inBand target (splitWordCount (cleaned 2)) →
     ¬ inBand target (splitWordCount (cleaned 3)) →
        ∃ i, (i = 1 ∨ i = 2 ∨ i = 3) ∧
          direct_summarize target cleaned = cleaned i ∧
          attemptDev target (splitWordCount (cleaned i))
            ≤ attemptDev target (splitWordCount (cleaned 1)) ∧
          attemptDev target (splitWordCount (cleaned i))
            ≤ attemptDev target (splitWordCount (cleaned 2)) ∧
          attemptDev target (splitWordCount (cleaned i))
            ≤ attemptDev target (splitWordCount (cleaned 3))) := by
  have u1 : direct_summarize target cleaned
      = if inBand target (splitWordCount (cleaned 1)) then cleaned 1
        else directLoopGo target cleaned 2 2
          (some (cleaned 1, attemptDev target (splitWordCount (cleaned 1)))) :=
    rfl
  have u2 : ∀ b bd, directLoopGo target cleaned 2 2 (some (b, bd))
      = if inBand target (splitWordCount (cleaned 2)) then cleaned 2
        else directLoopGo target cleaned 1 3
          (if attemptDev target (splitWordCount (cleaned 2)) < bd
           then some (cleaned 2, attemptDev target (splitWordCount (cleaned 2)))
           else some (b, bd)) := fun _ _ => rfl
  have u3 : ∀ b bd, directLoopGo target cleaned 1 3 (some (b, bd))
      = if inBand target (splitWordCount (cleaned 3)) then cleaned 3
        else directLoopGo target cleaned 0 4
          (if attemptDev target (splitWordCount (cleaned 3)) < bd
           then some (cleaned 3, attemptDev target (splitWordCount (cleaned 3)))
           else some (b, bd)) := fun _ _ => rfl
  have u0 : ∀ b bd, directLoopGo target cleaned 0 4 (some (b, bd)) = b :=
    fun _ _ => rfl
  set d1 := attemptDev target (splitWordCount (cleaned 1)) with hd1
  set d2 := attemptDev target (splitWordCount (cleaned 2)) with hd2
  set d3 := attemptDev target (splitWordCount (cleaned 3)) with hd3
  refine ⟨?_, ?_, ?_, ?_⟩
  · intro h1
    rw [u1, if_pos h1]
  · intro h1 h2
    rw [u1, if_neg h1, u2, if_pos h2]
  · intro h1 h2 h3
    rw [u1, if_neg h1, u2, if_neg h2]
    by_cases hc : d2 < d1
    · rw [if_pos hc, u3, if_pos h3]
    · rw [if_neg hc, u3, if_pos h3]
  · intro h1 h2 h3
    rw [u1, if_neg h1, u2, if_neg h2]
    by_cases hc : d2 < d1
    · rw [if_pos hc, u3, if_neg h3]
      by_cases hc3 : d3 < d2
      · rw [if_pos hc3, u0]
        exact ⟨3, by omega, rfl, by omega, by omega, by omega⟩
      · rw [if_neg hc3, u0]
        exact ⟨2, by omega, rfl, by omega, by omega, by omega⟩
    · rw [if_neg hc, u3, if_neg h3]
      by_cases hc3 : d3 < d1
      · rw [if_pos hc3, u0]
        exact ⟨3, by omega, rfl, by omega, by omega, by omega⟩
      · rw [if_neg hc3, u0]
        exact ⟨1, by omega, rfl, by omega, by omega, by omega⟩

theorem direct_summarize_spec_witness :
    direct_summarize 3 (fun _ => "alpha beta gamma") = "alpha beta gamma" :=
  (direct_summarize_spec 3 (fun _ => "alpha beta gamma")).1 (by decide)


/-- Two permutations of the same multiset of partial summaries with
pairwise-distinct indices sort to the same list. -/
lemma sortByIndex_perm_eq (l1 l2 : List PartialSummary)
    (hperm : l1.Perm l2)
    (hnd : (l1.map PartialSummary.index).Nodup) :
    sortByIndex l1 = sortByIndex l2 := by
  haveI hto : IsTotal PartialSummary (fun a b => a.index ≤ b.index) :=
    ⟨fun a b => Nat.le_total a.index b.index⟩
  haveI htr : IsTrans PartialSummary (fun a b => a.index ≤ b.index) :=
    ⟨fun a b c hab hbc => le_trans hab hbc⟩
  have hs1 : List.Sorted (fun a b => a.index ≤ b.index) (sortByIndex l1) :=
    List.sorted_insertionSort _ l1
  have hs2 : List.Sorted (fun a b => a.index ≤ b.index) (sortByIndex l2) :=
    List.sorted_insertionSort _ l2
  have hp : (sortByIndex l1).Perm (sortByIndex l2) :=
    ((List.perm_insertionSort _ l1).trans hperm).trans
      (List.perm_insertionSort _ l2).symm
  have hnd1 : ((sortByIndex l1).map PartialSummary.index).Nodup :=
    (((List.perm_insertionSort _ l1).map PartialSummary.index).nodup_iff).2 hnd
  have hnd2 : ((sortByIndex l2).map PartialSummary.index).Nodup := by
    refine ((hp.map PartialSummary.index).nodup_iff).1 hnd1
  have hlt1 : List.Sorted (fun a b => a.index < b.index) (sortByIndex l1) := by
    have hne := (List.pairwise_map).1 hnd1
    exact (hs1.and hne).imp (fun h => lt_of_le_of_ne h.1 h.2)
  have hlt2 : List.Sorted (fun a b => a.index < b.index) (sortByIndex l2) := by
    have hne := (List.pairwise_map).1 hnd2
    exact (hs2.and hne).imp (fun h => lt_of_le_of_ne h.1 h.2)
  haveI : IsAntisymm PartialSummary (fun a b => a.index < b.index) :=
    ⟨fun a b h1 h2 => absurd (lt_trans h1 h2) (lt_irrefl _)⟩
  exact List.eq_of_perm_of_sorted hp hlt1 hlt2

/-- C5: merge_partial_summaries is order-independent: two permutations of
the same set of partial summaries with distinct indices produce identical
MergedDraft values (in particular identical markdown text and identical
total_summary_words). -/
theorem merge_partial_summaries_order_independent
    (l1 l2 : List PartialSummary) (ow : Option ℕ)
    (hperm : l1.Perm l2)
    (hnd : (l1.map PartialSummary.index).Nodup) :
    (merge_partial_summaries l1 ow).markdown
        = (merge_partial_summaries l2 ow).markdown ∧
    (merge_partial_summaries l1 ow).total_summary_words
        = (merge_partial_summaries l2 ow).total_summary_words := by
  have heq : merge_partial_summaries l1 ow = merge_partial_summaries l2 ow := by
    have hsort := sortByIndex_perm_eq l1 l2 hperm hnd
    cases h1 : l1 with
    | nil =>
        have h2 : l2 = [] := by
          rw [h1] at hperm
          exact hperm.symm.eq_nil
        rw [h2]
    | cons a t1 =>
        cases h2 : l2 with
        | nil =>
            rw [h1, h2] at hperm
            exact absurd hperm.eq_nil (by simp)
        | cons b t2 =>
            rw [h1, h2] at hsort
            simp only [merge_partial_summaries, hsort]
  exact ⟨by rw [heq], by rw [heq]⟩

theorem merge_partial_summaries_order_independent_witness :
    (merge_partial_summaries
        [⟨"c2", 1, "second part", 2, 1⟩, ⟨"c1", 0, "first part", 2, 1⟩]
        (some 100)).markdown
      = (merge_partial_summaries
        [⟨"c1", 0, "first part", 2, 1⟩, ⟨"c2", 1, "second part", 2, 1⟩]
        (some 100)).markdown :=
  (merge_partial_summaries_order_independent
    [⟨"c2", 1, "second part", 2, 1⟩, ⟨"c1", 0, "first part", 2, 1⟩]
    [⟨"c1", 0, "first part", 2, 1⟩, ⟨"c2", 1, "second part", 2, 1⟩]
    (some 100) (by decide) (by decide)).1


/-- Folding index-addressed writes over any completion order fills every
slot whose index occurs in the order (later writes of the same slot write
the same value), and preserves the slot count. -/
lemma foldl_indexed_set {α : Type} (g : ℕ → α) :
    ∀ (order : List ℕ) (st : List (Option α) → ℕ → List (Option α)),
      (∀ acc i, i ∈ order → st acc i = acc.set i (some (g i))) →
      ∀ acc : List (Option α),
        (∀ j, j < acc.length → (j ∈ order ∨ acc[j]? = some (some (g j)))) →
        (order.foldl st acc).length = acc.length ∧
        (∀ j, j < acc.length →
          (order.foldl st acc)[j]? = some (some (g j))) := by
  intro order
  induction order with
  | nil =>
      intro st hstep acc hacc
      refine ⟨rfl, ?_⟩
      intro j hj
      rcases hacc j hj with h | h
      · simp at h
      · simpa using h
  | cons a l ih =>
      intro st hstep acc hacc
      have hsa : st acc a = acc.set a (some (g a)) :=
        hstep acc a (List.mem_cons_self a l)
      have hlen : (st acc a).length = acc.length := by
        rw [hsa]; exact List.length_set acc a _
      have hstep2 : ∀ acc2 i, i ∈ l → st acc2 i = acc2.set i (some (g i)) :=
        fun acc2 i hi => hstep acc2 i (List.mem_cons_of_mem a hi)
      have hacc2 : ∀ j, j < (st acc a).length →
          (j ∈ l ∨ (st acc a)[j]? = some (some (g j))) := by
        intro j hj
        rw [hlen] at hj
        by_cases hja : j = a
        · subst hja
          right
          rw [hsa]
          exact List.getElem?_set_self hj
        · rcases hacc j hj with h | h
          · rcases List.mem_cons.1 h with h2 | h2
            · exact absurd h2.symm (Ne.symm hja)
            · exact Or.inl h2
          · right
            rw [hsa]
            rw [List.getElem?_set_ne (Ne.symm hja)]
            exact h
      obtain ⟨ihlen, ihget⟩ := ih st hstep2 (st acc a) hacc2
      constructor
      · simpa [List.foldl_cons, hlen] using ihlen
      · intro j hj
        have := ihget j (by omega)
        simpa [List.foldl_cons] using this

/-- reduceOption over a list of definitely-present options is the bare map. -/
lemma reduceOption_map_some {α : Type} (g : ℕ → α) :
    ∀ l : List ℕ, (l.map (fun i => some (g i))).reduceOption = l.map g := by
  intro l
  induction l with
  | nil => simp
  | cons a t ih => simp [List.reduceOption_cons_of_some, ih]

/-- C6: for chunks indexed 0..n-1, the fan-out of summarize_chunks is
completion-order invariant: whatever order the per-chunk tasks finish
writing their pre-indexed result slots, the returned list has length n
and its element at position i is the summary of the chunk with index i. -/
theorem summarize_chunks_order_invariant (gen : Chunk → String)
    (chunks : List Chunk) (order : List ℕ)
    (hidx : ∀ i, ∀ h : i < chunks.length, chunks[i].index = i)
    (hperm : order.Perm (List.range chunks.length)) :
    (summarize_chunks gen chunks order).length = chunks.length ∧
    (∀ i, ∀ h : i < chunks.length,
      (summarize_chunks gen chunks order)[i]?
        = some (summarize_chunk gen chunks[i])) := by
  classical
  set n := chunks.length with hn
  set g : ℕ → PartialSummary := fun i =>
    match chunks[i]? with
    | some c => summarize_chunk gen c
    | none => ⟨"", 0, "", 0, 1⟩ with hg
  have hmemlt : ∀ i, i ∈ order → i < n := by
    intro i hi
    have : i ∈ List.range n := hperm.mem_iff.1 hi
    simpa using this
  have hget : ∀ i, ∀ h : i < n, chunks[i]? = some chunks[i] := by
    intro i h
    simp [List.getElem?_eq_getElem h]
  have hstep : ∀ (acc : List (Option PartialSummary)) i, i ∈ order →
      (match chunks[i]? with
        | some c => acc.set c.index (some (summarize_chunk gen c))
        | none => acc) = acc.set i (some (g i)) := by
    intro acc i hi
    have hlt := hmemlt i hi
    rw [hget i hlt]
    simp only [hg]
    rw [hget i hlt]
    simp [hidx i hlt]
  have hmain := foldl_indexed_set g order
    (fun acc i =>
      match chunks[i]? with
      | some c => acc.set c.index (some (summarize_chunk gen c))
      | none => acc)
    hstep
    (List.replicate n none)
    (by
      intro j hj
      left
      rw [List.length_replicate] at hj
      exact hperm.mem_iff.2 (by simpa using hj))
  obtain ⟨hlen, hslots⟩ := hmain
  rw [List.length_replicate] at hlen hslots
  set slots := order.foldl
    (fun acc i =>
      match chunks[i]? with
      | some c => acc.set c.index (some (summarize_chunk gen c))
      | none => acc)
    (List.replicate n (none : Option PartialSummary)) with hslots_def
  have hform : slots = (List.range n).map (fun i => some (g i)) := by
    apply List.ext_getElem?
    intro j
    by_cases hj : j < n
    · rw [hslots j hj]
      rw [List.getElem?_map]
      rw [List.getElem?_range hj]
      rfl
    · have h1 : slots[j]? = none :=
        List.getElem?_eq_none (by omega)
      have h2 : ((List.range n).map (fun i => some (g i)))[j]? = none :=
        List.getElem?_eq_none (by simp; omega)
      rw [h1, h2]
  have hsc : summarize_chunks gen chunks order = slots.reduceOption := rfl
  rw [hsc, hform, reduceOption_map_some]
  constructor
  · simp
  · intro i h
    rw [List.getElem?_map, List.getElem?_range h]
    have hgi : g i = summarize_chunk gen chunks[i] := by
      simp only [hg]
      rw [hget i h]
    rw [Option.map_some', hgi]

theorem summarize_chunks_order_invariant_witness :
    (summarize_chunks (fun c => c.text)
        [⟨"a", 0, "alpha text", 2, 3⟩, ⟨"b", 1, "beta text", 2, 3⟩]
        [1, 0]).length = 2 :=
  (summarize_chunks_order_invariant (fun c => c.text)
    [⟨"a", 0, "alpha text", 2, 3⟩, ⟨"b", 1, "beta text", 2, 3⟩]
    [1, 0]
    (by decide)
    (by decide)).1


end TextAgent
